import Mathlib

/-!
A shallow embedding of the docstring parser of `mkgendocs` (file
`mkgendocs/parse.py`) together with proofs about it.

Modelling conventions:
* Python strings are `List Char`; `str.split`, `str.join`, `str.strip`
  and slicing are recursive functions on character lists.
* The regular expressions compiled in `GoogleDocString.__init__` are
  hand-translated to matching functions on character lists.  The Python
  classes `\s` and `\w` are modelled over their ASCII range
  (the only characters occurring in the repository's docstrings), and the
  configured delimiter strings are treated as literal text, which is exact
  for the default configuration (`':'`, `': '`) used throughout.
* Mutable instance state (`self._state`) becomes explicit state passing;
  `raise` becomes an error-result type `PRes`.
-/

/-- ASCII range of Python's regex class `\s` (also used by `str.strip`). -/
def isPySpace (c : Char) : Bool :=
  c = ' ' || c = '\t' || c = '\n' || c = '\r' || c = '\x0b' || c = '\x0c'

/-- ASCII range of Python's regex class `\w`. -/
def isWordChar (c : Char) : Bool :=
  c.isAlphanum || c = '_'

/-- Helper for `splitChar`: accumulates the current field in reverse. -/
def splitCharAux (sep : Char) (cur : List Char) : List Char → List (List Char)
  | [] => [cur.reverse]
  | c :: rest =>
    if c = sep then cur.reverse :: splitCharAux sep [] rest
    else splitCharAux sep (c :: cur) rest

/-- Python `str.split(sep)` for a single-character separator. -/
def splitChar (sep : Char) (l : List Char) : List (List Char) :=
  splitCharAux sep [] l

/-- Python `docstring.split('\n')`. -/
def splitLines (l : List Char) : List (List Char) :=
  splitChar '\n' l

/-- Python `'\n'.join(lines)`. -/
def joinLines : List (List Char) → List Char
  | [] => []
  | [l] => l
  | l :: ls => l ++ '\n' :: joinLines ls

/-- Python `str.strip()` (over the ASCII whitespace range). -/
def stripWs (l : List Char) : List Char :=
  ((l.dropWhile isPySpace).reverse.dropWhile isPySpace).reverse

/-- Whether `pat` occurs as a contiguous substring of `l` (an unanchored
regex alternative matches somewhere in the line iff this holds). -/
def containsSub (pat l : List Char) : Bool :=
  l.tails.any (fun t => pat.isPrefixOf t)

/-- First element of `ls` that is a nonempty line, or the empty line.
Mirrors the skipping loop of `_get_next_line` in `parse.py`. -/
def first_nonblank (ls : List (List Char)) : List Char :=
  match ls.find? (fun l => !l.isEmpty) with
  | some l => l
  | none => []

/-- `_get_next_line(lines, linenumber)` from `parse.py`: the next line after
index `linenumber`, skipping empty lines; the empty line past the end. -/
def _get_next_line (lines : List (List Char)) (linenumber : Nat) : List Char :=
  first_nonblank (lines.drop (linenumber + 1))

/-- Resolved parser configuration (`get_config` applied to the default tables
of `DocString.__init__` and `GoogleDocString.__init__`).  The `headers`,
`blocks`, `args` and `returns` strings are stored already split on `'|'`,
which is how every consumer of the configuration reads them. -/
structure Config where
  delimiter : List Char
  arg_delimiter : List Char
  indent : Nat
  check_args : Bool
  override_anns : Bool
  warn_if_no_arg_doc : Bool
  exclude_warn_if_no_arg_doc : List (List Char)
  headers : List (List Char)
  blocks : List (List Char)
  args : List (List Char)
  returns : List (List Char)
  ignore_args_for_undefined_headers : Bool
  warn_if_undefined_header : Bool
  code : Option (List Char)
deriving DecidableEq

/-- The header keyword alternatives of `GoogleDocString.__init__`.  The source
builds the string by concatenating `'...|Fields' + 'Notes|...'`, so the list
contains the fused keyword `FieldsNotes` and neither `Fields` nor `Notes`. -/
def googleHeaders : List (List Char) :=
  [("Args".toList), ("Arguments".toList), ("Returns".toList), ("Yields".toList),
   ("Raises".toList), ("Note".toList), ("Properties".toList), ("FieldsNotes".toList),
   ("Example".toList), ("Examples".toList), ("Attributes".toList), ("Todo".toList),
   ("References".toList)]

/-- The block (admonition) keyword alternatives.  The source string ends in
`'quote|cite '`, so the final keyword is `"cite "` with a trailing space. -/
def googleBlocks : List (List Char) :=
  [("note".toList), ("seealso".toList), ("abstract".toList), ("summary".toList),
   ("tldr".toList), ("info".toList), ("todo".toList), ("tip".toList),
   ("hint".toList), ("important".toList), ("success".toList), ("check".toList),
   ("done".toList), ("question".toList), ("help".toList), ("faq".toList),
   ("warning".toList), ("caution".toList), ("attention".toList), ("failure".toList),
   ("fail".toList), ("missing".toList), ("danger".toList), ("error".toList),
   ("bug".toList), ("example".toList), ("snippet".toList), ("quote".toList),
   ("cite ".toList)]

/-- The configuration a `GoogleDocString` built with `config=None` resolves
to (defaults of `DocString.__init__` overlaid with the Google defaults). -/
def googleConfig : Config where
  delimiter := (":".toList)
  arg_delimiter := (": ".toList)
  indent := 4
  check_args := true
  override_anns := true
  warn_if_no_arg_doc := true
  exclude_warn_if_no_arg_doc := [("self".toList)]
  headers := googleHeaders
  blocks := googleBlocks
  args := [("Args".toList), ("Arguments".toList)]
  returns := [("Returns".toList), []]
  ignore_args_for_undefined_headers := true
  warn_if_undefined_header := true
  code := some ("python".toList)

/-- `_get_indent`: length of the leading whitespace run when the indent regex
`(^\s{minIndent,})` matches, else 0. -/
def _get_indent (minIndent : Nat) (line : List Char) : Nat :=
  let k := (line.takeWhile isPySpace).length
  if minIndent ≤ k then k else 0

/-- `_is_indent`: the indent regex matched with a positive run. -/
def _is_indent (minIndent : Nat) (line : List Char) : Bool :=
  decide (0 < _get_indent minIndent line)

/-- `_is_header`: the anchored header regex `^\s*(kw1|kw2|...)delim\s*`
matches the line.  With backtracking this holds iff some keyword followed by
the delimiter prefixes the line once leading whitespace is removed. -/
def _is_header (headers : List (List Char)) (delim : List Char)
    (line : List Char) : Bool :=
  headers.any (fun kw => (kw ++ delim).isPrefixOf (line.dropWhile isPySpace))

/-- `_get_header`: the keyword captured by the header regex (alternatives are
tried in order), or the empty string when the regex does not match. -/
def _get_header (headers : List (List Char)) (delim : List Char)
    (line : List Char) : List Char :=
  match headers.find? (fun kw => (kw ++ delim).isPrefixOf (line.dropWhile isPySpace)) with
  | some kw => kw
  | none => []

/-- `_is_block`: the block regex `^\s*(?:\!{3})|(?:\?{3}) (kw1|...) (?:\".*\")?\s*`
matches.  Because the alternation `|` has lowest precedence, the regex is the
union of (a) an anchored `^\s*!!!` and (b) an unanchored
`\?{3} (kw1|...) ` (the optional quoted title and trailing `\s*` can always
match the empty string, so only the mandatory part constrains matching). -/
def _is_block (blocks : List (List Char)) (line : List Char) : Bool :=
  (['!', '!', '!'] : List Char).isPrefixOf (line.dropWhile isPySpace) ||
  blocks.any (fun kw => containsSub (("??? ".toList) ++ kw ++ [' ']) line)

/-- Part of the argument regex `(\w*)\s*(\(.*\))?\s*delim(.*)`: after the
opening `'('`, greedy `.*\)` picks the rightmost `')'` after which
`\s*` followed by the literal delimiter matches; returns the text inside the
parentheses and the rest of the line after the delimiter.  (The delimiter is
treated as literal text starting with a non-space character, which holds for
the default `': '`.) -/
def tryParen (delim : List Char) : List Char → Option (List Char × List Char)
  | [] => none
  | c :: cs =>
    match tryParen delim cs with
    | some (inside, desc) => some (c :: inside, desc)
    | none =>
      if c = ')' then
        let after := cs.dropWhile isPySpace
        if delim.isPrefixOf after then some ([], after.drop delim.length)
        else none
      else none

/-- One anchored attempt of the argument regex at the start of `l`.  `\w*`
must take the maximal word run (the following element can never consume a
word character), likewise the `\s*` runs are maximal; the optional
parenthesis group is preferred when `'('` follows.  Returns
(field, signature-with-parens-or-empty, description). -/
def matchArgHere (delim : List Char) (l : List Char) :
    Option (List Char × List Char × List Char) :=
  let f := l.takeWhile isWordChar
  let r2 := (l.dropWhile isWordChar).dropWhile isPySpace
  match r2 with
  | '(' :: cs =>
    match tryParen delim cs with
    | some (inside, desc) => some (f, '(' :: inside ++ [')'], desc)
    | none =>
      if delim.isPrefixOf r2 then some (f, [], r2.drop delim.length) else none
  | _ =>
    if delim.isPrefixOf r2 then some (f, [], r2.drop delim.length) else none

/-- `_get_arg` restricted to the first match, which is all
`_parse_arglist` uses (`arg_data[0]`): leftmost match of the unanchored
argument regex, as the captured groups. -/
def _get_arg (delim : List Char) : List Char → Option (List Char × List Char × List Char)
  | [] => matchArgHere delim []
  | l@(_ :: cs) =>
    match matchArgHere delim l with
    | some r => some r
    | none => _get_arg delim cs

/-- Whether the character list between `'('` and a candidate `')'` fits the
inner part of the signature regex `(?:[^,]+\s*[,]\s*)*[^,]*`: every
comma-separated segment but the last is nonempty. -/
def validArgsInside (inside : List Char) : Bool :=
  ((splitChar ',' inside).dropLast).all (fun s => !s.isEmpty)

/-- Greedy choice of the closing parenthesis for `get_signature`: the
rightmost `')'` whose prefix fits the argument-list shape. -/
def rightmostValidParen (l : List Char) : Option (List Char) :=
  (List.range l.length).reverse.findSome? (fun i =>
    if l.getD i ' ' = ')' && validArgsInside (l.take i) then some (l.take i)
    else none)

/-- `GoogleDocString.get_signature`: strip the line, then `re.match` the
pattern `name\((?:[^,]+\s*[,]\s*)*[^,]*\)` where `name` is `\w*\_?\w*`
(equivalently a maximal word run); returns the matched prefix. -/
def get_signature (line : List Char) : Option (List Char) :=
  let l := stripWs line
  let name := l.takeWhile isWordChar
  let rest := l.dropWhile isWordChar
  match rest with
  | '(' :: cs =>
    match rightmostValidParen cs with
    | some inside => some (name ++ '(' :: inside ++ [')'])
    | none => none
  | _ => none

/-- One documented argument as produced by `_parse_arglist`
(`{'field': .., 'signature': .., 'description': ..}`). -/
structure ArgEntry where
  field : List Char
  signature : List Char
  description : List Char
deriving DecidableEq

/-- One parsed section as produced by `parse_section`
(`{'header': .., 'text': .., 'args': ..}` plus the optional
`'signature'` key). -/
structure ParsedSection where
  header : List Char
  text : List Char
  args : List ArgEntry
  signature? : Option (List Char)
deriving DecidableEq

/-- The continuation loop of `_parse_arglist`, acting on the lines after the
entry line (`remaining = lines[linenum+1:]`): while the next nonblank line is
indented, consume one line (which may be a blank line sitting before the
peeked one) into the description.  Returns the grown description list and the
number of lines consumed. -/
def arglistCont (minIndent : Nat) (acc : List (List Char)) :
    List (List Char) → List (List Char) × Nat
  | [] => (acc, 0)
  | r :: rest =>
    if _is_indent minIndent (first_nonblank (r :: rest)) then
      let p := arglistCont minIndent (acc ++ [r]) rest
      (p.1, p.2 + 1)
    else (acc, 0)

/-- `_parse_arglist` (with the `require` flag at its only call site's default
`False`): try the argument regex on the current line; on success absorb
indented continuation lines.  Returns the entry (if any) and the value of
`self._state['linenum']` after the call. -/
def _parse_arglist (cfg : Config) (lines : List (List Char)) (linenum : Nat) :
    Option ArgEntry × Nat :=
  match _get_arg cfg.arg_delimiter (lines.getD linenum []) with
  | none => (none, linenum)
  | some (f, s, d) =>
    let p := arglistCont cfg.indent [d] (lines.drop (linenum + 1))
    (some ⟨f, s, joinLines p.1⟩, linenum + p.2)

/-- The scanning loop of `parse_section`.  `fuel` starts at `lines.length`;
since each iteration advances `linenum` by at least one, the fuel runs out
only when `linenum` has already passed the end, where the loop would stop
anyway, so the fuelled function equals the `while` loop. -/
def parseSecLoop (cfg : Config) (lines : List (List Char)) (header : List Char) :
    Nat → Nat → Option (List Char) → List (List Char) → List ArgEntry →
    Option (List Char) × List (List Char) × List ArgEntry
  | 0, _, sigOut, text, args => (sigOut, text, args)
  | fuel + 1, linenum, sigOut, text, args =>
    if linenum < lines.length then
      let pa := _parse_arglist cfg lines linenum
      let ln2 := pa.2
      let sigFound := if ln2 = 0 then get_signature (lines.getD 0 []) else none
      let sigOut2 := match sigFound with
        | some s => some s
        | none => sigOut
      match pa.1 with
      | some entry =>
        if header ≠ [] ∨ cfg.ignore_args_for_undefined_headers = false then
          parseSecLoop cfg lines header fuel (ln2 + 1) sigOut2 text (args ++ [entry])
        else
          let text2 := if 0 < ln2 ∨ sigFound = none then text ++ [lines.getD ln2 []] else text
          parseSecLoop cfg lines header fuel (ln2 + 1) sigOut2 text2 args
      | none =>
        let text2 := if 0 < ln2 ∨ sigFound = none then text ++ [lines.getD ln2 []] else text
        parseSecLoop cfg lines header fuel (ln2 + 1) sigOut2 text2 args
    else (sigOut, text, args)

/-- `GoogleDocString.parse_section`: split the section text into lines, read
the header off line 0 (skipping it when present), then scan the remaining
lines for argument entries and prose. -/
def parse_section (cfg : Config) (sec : List Char) : ParsedSection :=
  let lines := splitLines sec
  let header := _get_header cfg.headers cfg.delimiter (lines.getD 0 [])
  let start := if header = [] then 0 else 1
  let r := parseSecLoop cfg lines header lines.length start none [] []
  { header := header, text := joinLines r.2.1, args := r.2.2, signature? := r.1 }

/-- Python-level failures surfaced by the parser: the `SyntaxError` raised by
`_err_if_missing_indent` (carrying its message) and the `KeyError` raised by
`check_args` when it subscripts a missing docstring argument. -/
inductive PErr where
  | synErr (msg : List Char)
  | keyErr (key : List Char)
deriving DecidableEq

/-- Result of a computation that may raise. -/
inductive PRes (α : Type) where
  | ok (val : α)
  | err (e : PErr)
deriving DecidableEq

/-- The message of the `SyntaxError` raised by `_err_if_missing_indent`:
`f"Invalid section: docstring line {lineno}: missing indent after \"{line}\" "`. -/
def err_msg (lineno : Nat) (line : List Char) : List Char :=
  ("Invalid section: docstring line ".toList) ++ Nat.toDigits 10 lineno ++
  (": missing indent after \"".toList) ++ line ++ ("\" ".toList)

/-- The pieces of `self._state` read and written by `extract_sections`:
the current base indent, the completed sections, and the open section
buffer (`_state['section']`). -/
structure ExtState where
  indent : Nat
  sects : List (List Char)
  buf : List (List Char)
deriving DecidableEq

/-- `_end_section`: flush the open buffer as a completed section when its
joined text is not whitespace-only. -/
def _end_section (st : ExtState) : ExtState :=
  let text := joinLines st.buf
  if stripWs text ≠ [] then { st with sects := st.sects ++ [text] } else st

/-- `_begin_section`: clear the buffer and reset the base indent. -/
def _begin_section (st : ExtState) : ExtState :=
  { st with buf := [], indent := 0 }

/-- The line loop of `extract_sections`.  `rest` is `lines.drop i`; the full
`lines` list is kept for the look-ahead of `_err_if_missing_indent`.
`ns`/`nb` are the loop-local `new_section`/`new_block` flags. -/
def extractAux (cfg : Config) (lines : List (List Char)) :
    List (List Char) → Nat → Bool → Bool → ExtState → PRes ExtState
  | [], _, _, _, st => .ok st
  | line :: rest, i, ns, nb, st =>
    let ci := _get_indent cfg.indent line
    let st1 := if ns && _is_indent cfg.indent line then { st with indent := ci } else st
    let ns1 := if ns && _is_indent cfg.indent line then false else ns
    let nb1 := if nb && _is_indent cfg.indent line then false else nb
    if _is_header cfg.headers cfg.delimiter line then
      if _is_indent cfg.indent (_get_next_line lines i) = false then
        .err (.synErr (err_msg i line))
      else
        let st2 := _begin_section (_end_section st1)
        extractAux cfg lines rest (i + 1) true false
          { st2 with buf := st2.buf ++ [line.drop st2.indent] }
    else if _is_block cfg.blocks line then
      if _is_indent cfg.indent (_get_next_line lines i) = false then
        .err (.synErr (err_msg i line))
      else
        let st2 := _begin_section (_end_section st1)
        extractAux cfg lines rest (i + 1) false true
          { st2 with buf := st2.buf ++ [line.drop st2.indent] }
    else if line ≠ [] ∧ ci < st1.indent then
      let st2 := _begin_section (_end_section st1)
      extractAux cfg lines rest (i + 1) ns1 nb1
        { st2 with buf := st2.buf ++ [line.drop st2.indent] }
    else
      extractAux cfg lines rest (i + 1) ns1 nb1
        { st1 with buf := st1.buf ++ [line.drop st1.indent] }

/-- `GoogleDocString.extract_sections`.  `prev` is the content of
`self._state['sections']` on entry (empty for a fresh instance; the method
only ever appends to it).  Returns the final value of
`self._state['sections']` after the trailing `_end_section`/`_begin_section`
pair. -/
def extract_sections (cfg : Config) (doc : List Char)
    (prev : List (List Char)) : PRes (List (List Char)) :=
  let lines := splitLines doc
  match extractAux cfg lines lines 0 true false ⟨0, prev, []⟩ with
  | .err e => .err e
  | .ok st => .ok ((_begin_section (_end_section st)).sects)

/-- Prepend `pre` to the completed-sections component of an extraction
result (proof infrastructure for the fact that `extract_sections` only ever
appends to `self._state['sections']`). -/
def mapSects (pre : List (List Char)) : PRes ExtState → PRes ExtState
  | .ok st => .ok ⟨st.indent, pre ++ st.sects, st.buf⟩
  | .err e => .err e

/-- A position in the line list at which `extract_sections` must raise: the
line is recognised as a header or block marker but the next nonblank line is
not indented. -/
def offending (cfg : Config) (lines : List (List Char)) (j : Nat) : Prop :=
  (_is_header cfg.headers cfg.delimiter (lines.getD j []) = true ∨
   _is_block cfg.blocks (lines.getD j []) = true) ∧
  _is_indent cfg.indent (_get_next_line lines j) = false

instance (cfg : Config) (lines : List (List Char)) (j : Nat) :
    Decidable (offending cfg lines j) := by
  unfold offending
  infer_instance

/-- The external signature map handed to the parser
(`{'args': {...}, 'return_annotation': ...}`); `args` models the dict as an
association list in key-insertion order (dict keys are unique). -/
structure Signature where
  args : List (List Char × List Char)
  return_ann : List Char
deriving DecidableEq

/-- The three advisory warnings `check_args` can emit, tagged by the argument
name they concern. -/
inductive DocWarning where
  | missingDoc (arg : List Char)
  | annMismatch (arg : List Char)
  | unknownArg (arg : List Char)
deriving DecidableEq

/-- The exact message strings `check_args` passes to `warnings.warn`. -/
def warningText : DocWarning → List Char
  | .missingDoc a =>
    ("Missing documentation for `".toList) ++ a ++ ("` in docstring.".toList)
  | .annMismatch a =>
    ("Annotation mismatch for `".toList) ++ a ++ ("` in docstring.".toList)
  | .unknownArg a =>
    (" Found argument `".toList) ++ a ++
    ("` in docstring that does not exist in function signature.".toList)

/-- Lookup in the dict `docstring_args` built by
`for arg in section['args']: docstring_args[arg['field']] = arg`
(a later entry with the same field overwrites an earlier one). -/
def dslookup (entries : List ArgEntry) (k : List Char) : Option ArgEntry :=
  entries.foldl (fun acc e => if e.field = k then some e else acc) none

/-- Dict lookup in the signature's `args` map (unique keys). -/
def plookup (sa : List (List Char × List Char)) (k : List Char) :
    Option (List Char) :=
  match sa.find? (fun p => p.1 == k) with
  | some p => some p.2
  | none => none

/-- Key membership `k in signature['args']`. -/
def sigHasKey (sa : List (List Char × List Char)) (k : List Char) : Bool :=
  sa.any (fun p => p.1 == k)

/-- Python's `'(%s)' % ty`. -/
def parenWrap (ty : List Char) : List Char :=
  '(' :: ty ++ [')']

/-- The first loop of `check_args` (over the declared signature arguments):
skip unannotated or excluded arguments; warn on missing documentation when
enabled; otherwise subscript `docstring_args[arg]` — a `KeyError` when the
argument is undocumented and the missing-doc warning is disabled — and warn
on an annotation mismatch. -/
def checkArgsLoop (cfg : Config) (dargs : List ArgEntry) :
    List (List Char × List Char) → PRes (List DocWarning)
  | [] => .ok []
  | (name, ty) :: rest =>
    if ty = [] ∨ name ∈ cfg.exclude_warn_if_no_arg_doc then
      checkArgsLoop cfg dargs rest
    else if (dslookup dargs name).isNone && cfg.warn_if_no_arg_doc then
      match checkArgsLoop cfg dargs rest with
      | .err e => .err e
      | .ok ws => .ok (.missingDoc name :: ws)
    else
      match dslookup dargs name with
      | none => .err (.keyErr name)
      | some e =>
        if e.signature ≠ parenWrap ty ∧ e.signature ≠ [] then
          match checkArgsLoop cfg dargs rest with
          | .err e2 => .err e2
          | .ok ws => .ok (.annMismatch name :: ws)
        else checkArgsLoop cfg dargs rest

/-- Keys of `docstring_args` in dict order (first insertion wins). -/
def dedupFirstAux (seen : List (List Char)) : List (List Char) → List (List Char)
  | [] => []
  | k :: rest =>
    if k ∈ seen then dedupFirstAux seen rest
    else k :: dedupFirstAux (k :: seen) rest

/-- Deduplicated key list preserving first occurrences. -/
def dedupFirst (l : List (List Char)) : List (List Char) :=
  dedupFirstAux [] l

/-- The second loop of `check_args`: warn for every documented argument whose
field is not a declared signature argument. -/
def unknownLoop (sa : List (List Char × List Char)) :
    List (List Char) → List DocWarning
  | [] => []
  | k :: rest =>
    if sigHasKey sa k then unknownLoop sa rest
    else .unknownArg k :: unknownLoop sa rest

/-- `DocString.check_args` on one parsed section: no-op without a signature
or with `check_args` disabled or on sections whose header is not an
arguments header; otherwise both loops, with the first loop able to raise. -/
def check_args (cfg : Config) (sig : Option Signature)
    (sec : ParsedSection) : PRes (List DocWarning) :=
  match sig with
  | none => .ok []
  | some s =>
    if cfg.check_args = false then .ok []
    else if sec.header ∈ cfg.args then
      match checkArgsLoop cfg sec.args s.args with
      | .err e => .err e
      | .ok ws1 =>
        .ok (ws1 ++ unknownLoop s.args (dedupFirst (sec.args.map (fun a => a.field))))
    else .ok []

/-- `DocString.override_annotations` (here `override_annots`): replace each
documented entry's signature by the declared annotation when the section's
header is one of the given names, the field is a key of `parsed_args`, and
its declared value is truthy. -/
def override_annots (enabled : Bool) (parsed_args : List (List Char × List Char))
    (hdrs : List (List Char)) (sec : ParsedSection) : ParsedSection :=
  if parsed_args = [] ∨ enabled = false then sec
  else if sec.header ∉ hdrs then sec
  else { sec with args := sec.args.map (fun a =>
    match plookup parsed_args a.field with
    | some v => if v ≠ [] then { a with signature := v } else a
    | none => a) }

/-- Helper for the module-level `mark_code_blocks`: `re.split('^\n', txt, M)`
splits the text at every newline standing at the start of a line (i.e. the
newline of an empty line), dropping that newline. -/
def splitCaretNlAux (atStart : Bool) (cur : List Char) :
    List Char → List (List Char)
  | [] => [cur.reverse]
  | c :: rest =>
    if c = '\n' then
      if atStart then cur.reverse :: splitCaretNlAux true [] rest
      else splitCaretNlAux true ('\n' :: cur) rest
    else splitCaretNlAux false (c :: cur) rest

/-- Split at line-initial newlines (see `splitCaretNlAux`). -/
def splitCaretNl (l : List Char) : List (List Char) :=
  splitCaretNlAux true [] l

/-- Leftmost split of `l` around the first occurrence of `pat`
(Python `l.split(pat)` restricted to the first separator, which together
with `pat.join(parts[1:])` is how `mark_code_blocks` uses the split). -/
def splitFirstSub (pat : List Char) : List Char → Option (List Char × List Char)
  | [] => if pat = [] then some ([], []) else none
  | l@(c :: cs) =>
    if pat.isPrefixOf l then some ([], l.drop pat.length)
    else match splitFirstSub pat cs with
      | some (pre, post) => some (c :: pre, post)
      | none => none

/-- First match of `(\s*)(>>>[\w\W]+)`: the whitespace run immediately before
the leftmost `'>>>'` that has at least one character after it, and the text
from that `'>>>'` to the end.  The first argument accumulates the current
whitespace run (reversed). -/
def findCode : List Char → List Char → Option (List Char × List Char)
  | run, l@('>' :: '>' :: '>' :: _ :: _) => some (run.reverse, l)
  | _, [] => none
  | run, c :: cs =>
    if isPySpace c then findCode (c :: run) cs else findCode [] cs

/-- The markdown code-fence tag of `mark_code_blocks`. -/
def codeTag : List Char := ("```".toList)

/-- Per-block body of the module-level `mark_code_blocks`: when the block
contains a `'>>>'` and the text after the first `'>>>'` again matches the
prompt pattern, rebuild the block as
`before + indent + tag + lang + '\n' + indent + match + indent + tag`;
otherwise leave the block unchanged. -/
def mark_block (keyword tag lang : List Char) (block : List Char) : List Char :=
  match splitFirstSub keyword block with
  | none => block
  | some (before, after) =>
    match findCode [] after with
    | none => block
    | some (ind, m2) =>
      before ++ ind ++ tag ++ lang ++ '\n' :: (ind ++ m2 ++ ind ++ tag)

/-- Module-level `mark_code_blocks(txt, lang=...)` with the default keyword
`'>>>'`, separator `'\n'` and tag. -/
def mark_code_blocks (lang : List Char) (txt : List Char) : List Char :=
  joinLines ((splitCaretNl txt).map (mark_block (">>>".toList) codeTag lang))

/-- `DocString.mark_code_blocks` guard: skipped when `config['code']` is
falsy (`None` or the empty string), else rewrite the section's text. -/
def mark_code_blocks_cfg (code : Option (List Char)) (sec : ParsedSection) :
    ParsedSection :=
  match code with
  | none => sec
  | some lang =>
    if lang = [] then sec
    else { sec with text := mark_code_blocks lang sec.text }

/-- The per-section body of the post-processing loop in `DocString.parse`:
`check_args` (which may raise), then — only with a truthy signature — the
two `override_annotations` calls (arguments headers with the declared
argument map, returns headers with `{'': return_annotation}`), then the
code-block marking. -/
def processOne (cfg : Config) (sig : Option Signature) (sec : ParsedSection) :
    PRes ParsedSection :=
  match check_args cfg sig sec with
  | .err e => .err e
  | .ok _ =>
    let s1 := match sig with
      | none => sec
      | some s =>
        override_annots cfg.override_anns [([], s.return_ann)] cfg.returns
          (override_annots cfg.override_anns s.args cfg.args sec)
    .ok (mark_code_blocks_cfg cfg.code s1)

/-- The post-processing loop of `DocString.parse` over all parsed sections
(an exception aborts the remaining iterations). -/
def processAll (cfg : Config) (sig : Option Signature) :
    List ParsedSection → PRes (List ParsedSection)
  | [] => .ok []
  | sec :: rest =>
    match processOne cfg sig sec with
    | .err e => .err e
    | .ok s2 =>
      match processAll cfg sig rest with
      | .err e => .err e
      | .ok r => .ok (s2 :: r)

/-- `DocString.parse`: reset `self.data`, extract sections (appending to the
persistent `self._state['sections']`, whose entry value is `prev`), parse
every accumulated section, and post-process.  Returns the new `self.data`
together with the new value of `self._state['sections']`. -/
def parseDS (cfg : Config) (sig : Option Signature) (doc : List Char)
    (prev : List (List Char)) :
    PRes (List ParsedSection × List (List Char)) :=
  match extract_sections cfg doc prev with
  | .err e => .err e
  | .ok secs =>
    match processAll cfg sig (secs.map (parse_section cfg)) with
    | .err e => .err e
    | .ok data => .ok (data, secs)

/-- `DocString.__init__` docstring normalisation:
`docstring if docstring is not None else ""`. -/
def ds_init (d : Option (List Char)) : List Char :=
  match d with
  | none => []
  | some s => s

/-- The keys of the `parsers` dict in the module-level `parser` function. -/
def parser_keys : List (List Char) := [("Google".toList)]

/-- The two ways the module-level `parser` function can leave its body:
entering `parsers[choice](...)`, or falling through past the constructed but
unraised `NotImplementedError`, which returns `None`. -/
inductive ParserOutcome where
  | callGoogle
  | retNone
deriving DecidableEq

/-- Control flow of the module-level `parser` function: dispatch on dict
membership of `choice`; in the else-branch `NotImplementedError(...)` is
evaluated but not raised, so the function returns `None`. -/
def parser_select (choice : List Char) : ParserOutcome :=
  if choice ∈ parser_keys then .callGoogle
  else
    let _unraised := ("The docstring parser `".toList) ++ choice ++
      ("` is not implemented".toList)
    .retNone

/-- Written from the spec's words (claim C8): an optional quoted title, i.e.
nothing at all, or a space followed by a double-quoted string. -/
def optQuotedTitle (rest : List Char) : Bool :=
  match rest with
  | [] => true
  | ' ' :: '"' :: more => decide (more.getLast? = some '"')
  | _ => false

/-- Written from the spec's words (claim C8): the line consists of the given
marker followed by the keyword and an optional quoted title. -/
def specMarkerForm (marker kw line : List Char) : Bool :=
  (marker ++ ' ' :: kw).isPrefixOf line &&
  optQuotedTitle (line.drop (marker ++ ' ' :: kw).length)

/-- Written from the spec's words (claim C8, to be compared with the
source-derived `_is_block`): the line consists of the marker `!!!` or `???`
followed by one of the configured admonition keywords and an optional quoted
title. -/
def specBlockLine (blocks : List (List Char)) (line : List Char) : Bool :=
  blocks.any (fun kw =>
    specMarkerForm ("!!!".toList) kw line || specMarkerForm ("???".toList) kw line)

example : splitLines ("a\nb".toList) = [['a'], ['b']] := by decide
example : joinLines (splitLines ("a\n\nb".toList)) = ("a\n\nb".toList) := by decide
example : _is_header googleHeaders (":".toList) ("  Args: ".toList) = true := by decide
example : _is_header googleHeaders (":".toList) ("Fields:".toList) = false := by decide
example : _is_block googleBlocks ("!!!".toList) = true := by decide
example : _is_block googleBlocks ("??? note".toList) = false := by decide
example : _is_block googleBlocks ("x ??? note y".toList) = true := by decide
example : _get_indent 4 ("    ab".toList) = 4 := by decide
example : _get_indent 4 ("   ab".toList) = 0 := by decide
example : _get_arg (": ".toList) ("x (int): the x value".toList) =
    some (("x".toList), ("(int)".toList), ("the x value".toList)) := by decide
example : _get_arg (": ".toList) ("int: a result".toList) =
    some (("int".toList), [], ("a result".toList)) := by decide
example : _get_arg (": ".toList) ("hello".toList) = none := by decide
example : get_signature ("hello".toList) = none := by decide
example : get_signature ("  foo(a, b) rest".toList) = some ("foo(a, b)".toList) := by decide
example : parse_section googleConfig ("Args:\nx (int): the x value".toList) =
    { header := ("Args".toList), text := [],
      args := [⟨("x".toList), ("(int)".toList), ("the x value".toList)⟩],
      signature? := none } := by decide
example : extract_sections googleConfig
    ("Args:\n    x (int): the x value\nReturns:\n    int: a result\n".toList) [] =
    .ok [("Args:\nx (int): the x value".toList), ("Returns:\nint: a result\n".toList)] := by
  decide
example : extract_sections googleConfig ("Args:\nno indent".toList) [] =
    .err (.synErr (err_msg 0 ("Args:".toList))) := by decide
example : extract_sections googleConfig ("    a\nb".toList) [] =
    .ok [("a".toList), ("b".toList)] := by decide
example : extract_sections googleConfig ("  \n \n".toList) [] = .ok [] := by decide
example : parseDS googleConfig none ("hello".toList) [] =
    .ok ([{ header := [], text := ("hello".toList), args := [], signature? := none }],
         [("hello".toList)]) := by decide
example : mark_code_blocks ("python".toList) [] = [] := by decide

/-- Claim C3, counterexample: on the stated docstring the Returns section's
single argument entry is `{field: "int", signature: "", description: "a
result"}` — the argument regex captures `int` as the field name and leaves
the parenthesised-type group empty — not `{field: "", signature: "int",
description: "a result"}` as the claim states. -/
theorem claim3_counterexample :
    parseDS googleConfig none
      ("Args:\n    x (int): the x value\nReturns:\n    int: a result\n".toList) [] =
      .ok ([{ header := ("Args".toList), text := [],
              args := [⟨("x".toList), ("(int)".toList), ("the x value".toList)⟩],
              signature? := none },
            { header := ("Returns".toList), text := [],
              args := [⟨("int".toList), [], ("a result".toList)⟩],
              signature? := none }],
           [("Args:\nx (int): the x value".toList),
            ("Returns:\nint: a result\n".toList)]) ∧
    (⟨("int".toList), [], ("a result".toList)⟩ : ArgEntry) ≠
      ⟨[], ("int".toList), ("a result".toList)⟩ :=
  ⟨by decide, by decide⟩

/-- Claim C3 (amended): parsing `"Args:\n    x (int): the x value\nReturns:\n
    int: a result\n"` with the default configuration and no external signature
yields exactly two parsed sections: the first with header `"Args"` and the
single entry `{field: "x", signature: "(int)", description: "the x value"}`,
the second with header `"Returns"` and the single entry `{field: "int",
signature: "", description: "a result"}`. -/
theorem claim3_theorem :
    parseDS googleConfig none
      ("Args:\n    x (int): the x value\nReturns:\n    int: a result\n".toList) [] =
      .ok ([{ header := ("Args".toList), text := [],
              args := [⟨("x".toList), ("(int)".toList), ("the x value".toList)⟩],
              signature? := none },
            { header := ("Returns".toList), text := [],
              args := [⟨("int".toList), [], ("a result".toList)⟩],
              signature? := none }],
           [("Args:\nx (int): the x value".toList),
            ("Returns:\nint: a result\n".toList)]) := by
  decide

/-- Claim C9: for every choice string other than `"Google"`, the module-level
`parser` function falls through its dict-membership test; the
`NotImplementedError` in the else-branch is constructed but never raised, so
the function returns `None` to its caller. -/
theorem claim9_theorem (choice : List Char) (h : choice ≠ ("Google".toList)) :
    parser_select choice = ParserOutcome.retNone := by
  unfold parser_select
  rw [if_neg]
  intro hmem
  exact h (by simpa [parser_keys] using hmem)

/-- Claim C9, witness: the factory applied to the unsupported choice
`"NumPy"` returns `None` rather than raising. -/
theorem claim9_witness : parser_select ("NumPy".toList) = ParserOutcome.retNone :=
  claim9_theorem ("NumPy".toList) (by decide)

/-- Claim C2, counterexample: the docstring `"    a\nb"` contains no line
matching a header keyword or a block marker, yet the extractor produces two
sections `["a", "b"]` — its third transition rule splits a section whenever a
nonblank line dedents below the section's established base indent. -/
theorem claim2_counterexample :
    ((splitLines ("    a\nb".toList)).all (fun l =>
        !(_is_header googleConfig.headers googleConfig.delimiter l) &&
        !(_is_block googleConfig.blocks l))) = true ∧
    extract_sections googleConfig ("    a\nb".toList) [] =
      .ok [("a".toList), ("b".toList)] :=
  ⟨by decide, by decide⟩

/-- Claim C4, counterexample: for the section body `["x: d", "", "    cont"]`
the entry line at position 0 is followed by exactly N = 0 contiguous indented
lines (line 1 is blank), so the claim predicts a single entry with
description `"d"` and exactly one consumed line; but because the
continuation loop peeks past blank lines, the parser swallows the blank line
and the indented line after it: it returns description `"d\n\n    cont"`
with the cursor advanced to line 2 (three lines consumed). -/
theorem claim4_counterexample :
    _is_indent googleConfig.indent ([] : List Char) = false ∧
    _parse_arglist googleConfig [("x: d".toList), [], ("    cont".toList)] 0 =
      (some ⟨("x".toList), [], ("d\n\n    cont".toList)⟩, 2) ∧
    ("d\n\n    cont".toList) ≠ ("d".toList) ∧ (2 : Nat) ≠ 0 :=
  ⟨by decide, by decide, by decide, by decide⟩

/-- Claim C5, counterexample: parsing the docstring `"hello"` once yields one
section; calling `parse()` again on the same instance re-runs
`extract_sections`, which appends to the persistent `self._state['sections']`
list, so the second call returns the section twice — not a structurally equal
result. -/
theorem claim5_counterexample :
    parseDS googleConfig none ("hello".toList) [] =
      .ok ([{ header := [], text := ("hello".toList), args := [], signature? := none }],
           [("hello".toList)]) ∧
    parseDS googleConfig none ("hello".toList) [("hello".toList)] =
      .ok ([{ header := [], text := ("hello".toList), args := [], signature? := none },
            { header := [], text := ("hello".toList), args := [], signature? := none }],
           [("hello".toList), ("hello".toList)]) ∧
    ([{ header := [], text := ("hello".toList), args := [], signature? := none },
      { header := [], text := ("hello".toList), args := [], signature? := none }] :
        List ParsedSection) ≠
      [{ header := [], text := ("hello".toList), args := [], signature? := none }] :=
  ⟨by decide, by decide, by decide⟩

/-- Claim C6, counterexample: with `warn_if_no_arg_doc` disabled in the
configuration, a declared argument `x` of type `int` with no documenting
entry makes `check_args` subscript `docstring_args['x']` in its mismatch
test and raise a `KeyError` — the cross-checks are not exception-free for
every configuration. -/
theorem claim6_counterexample :
    check_args { googleConfig with warn_if_no_arg_doc := false }
      (some ⟨[(("x".toList), ("int".toList))], []⟩)
      { header := ("Args".toList), text := [], args := [], signature? := none } =
      .err (.keyErr ("x".toList)) := by
  decide

/-- Claim C7, counterexample: the argument `self` declared with the nonempty
type `int` and documented with the nonempty, mismatching recorded signature
`"(str)"` produces no annotation-mismatch warning at all, because the
check's first loop skips every argument in `exclude_warn_if_no_arg_doc`
(default `['self']`) before the mismatch test. -/
theorem claim7_counterexample :
    check_args googleConfig
      (some ⟨[(("self".toList), ("int".toList))], []⟩)
      { header := ("Args".toList), text := [],
        args := [⟨("self".toList), ("(str)".toList), ("d".toList)⟩],
        signature? := none } = .ok [] ∧
    ("(str)".toList) ≠ parenWrap ("int".toList) ∧
    ("(str)".toList) ≠ ([] : List Char) :=
  ⟨by decide, by decide, by decide⟩

/-- Claim C8, counterexample: the bare line `"!!!"` carries no admonition
keyword, yet `_is_block` classifies it as a block marker (the alternation in
the block regex binds so that `^\s*!!!` alone is a complete alternative);
conversely `"??? note"` is exactly the marker `???` followed by the keyword
`note` with no title, yet `_is_block` rejects it (the `???` alternative
demands a space after the keyword). -/
theorem claim8_counterexample :
    _is_block googleConfig.blocks ("!!!".toList) = true ∧
    specBlockLine googleConfig.blocks ("!!!".toList) = false ∧
    _is_block googleConfig.blocks ("??? note".toList) = false ∧
    specBlockLine googleConfig.blocks ("??? note".toList) = true :=
  ⟨by decide, by decide, by decide, by decide⟩

theorem containsSub_iff (pat l : List Char) :
    containsSub pat l = true ↔ ∃ p q, l = p ++ pat ++ q := by
  unfold containsSub
  rw [List.any_eq_true]
  constructor
  · rintro ⟨t, ht, hp⟩
    rw [List.mem_tails] at ht
    obtain ⟨p, hp2⟩ := ht
    rw [List.isPrefixOf_iff_prefix] at hp
    obtain ⟨q, hq⟩ := hp
    exact ⟨p, q, by rw [← hp2, ← hq, List.append_assoc]⟩
  · rintro ⟨p, q, rfl⟩
    refine ⟨pat ++ q, ?_, ?_⟩
    · rw [List.mem_tails]
      exact ⟨p, by rw [List.append_assoc]⟩
    · rw [List.isPrefixOf_iff_prefix]
      exact ⟨q, rfl⟩

/-- Claim C8 (amended): for every configured keyword list and every line, the
extractor classifies the line as a block marker iff either the line begins
(after leading whitespace) with `!!!` — with no keyword required and anything
allowed afterwards — or the line contains anywhere a substring `??? `
followed by a configured admonition keyword and a further space. -/
theorem claim8_theorem (blocks : List (List Char)) (line : List Char) :
    _is_block blocks line = true ↔
      (['!', '!', '!'] : List Char) <+: line.dropWhile isPySpace ∨
      ∃ kw ∈ blocks, ∃ p q, line = p ++ (("??? ".toList) ++ kw ++ [' ']) ++ q := by
  unfold _is_block
  rw [Bool.or_eq_true, List.isPrefixOf_iff_prefix, List.any_eq_true]
  constructor
  · rintro (h | ⟨kw, hkw, hsub⟩)
    · exact Or.inl h
    · exact Or.inr ⟨kw, hkw, (containsSub_iff _ _).mp hsub⟩
  · rintro (h | ⟨kw, hkw, hdec⟩)
    · exact Or.inl h
    · exact Or.inr ⟨kw, hkw, (containsSub_iff _ _).mpr hdec⟩

theorem arglistCont_exact (minI : Nat) (N : Nat) :
    ∀ (rem acc : List (List Char)),
      ((rem.take N).all (fun l => _is_indent minI l)) = true →
      N ≤ rem.length →
      _is_indent minI (first_nonblank (rem.drop N)) = false →
      arglistCont minI acc rem = (acc ++ rem.take N, N) := by
  induction N with
  | zero =>
    intro rem acc _ _ hstop
    cases rem with
    | nil => simp [arglistCont]
    | cons r rest =>
      rw [List.drop_zero] at hstop
      simp [arglistCont, hstop]
  | succ n ih =>
    intro rem acc hall hN hstop
    cases rem with
    | nil => simp at hN
    | cons r rest =>
      rw [List.take_succ_cons, List.all_cons, Bool.and_eq_true] at hall
      obtain ⟨hr, hrest⟩ := hall
      obtain ⟨c, cs, rfl⟩ : ∃ c cs, r = c :: cs := by
        cases hrc : r with
        | nil =>
          rw [hrc] at hr
          simp [_is_indent, _get_indent] at hr
        | cons c cs => exact ⟨c, cs, rfl⟩
      have hfb : first_nonblank ((c :: cs) :: rest) = c :: cs := rfl
      rw [arglistCont, hfb, hr]
      rw [List.drop_succ_cons] at hstop
      rw [ih rest (acc ++ [c :: cs]) hrest (by simpa using hN) hstop]
      simp

/-- Claim C4 (amended): for every section body whose line at position `i`
matches an argument entry, which is followed by exactly `N` contiguous lines
indented by at least the configured minimum indent, and where the next
nonblank line after those `N` lines is not indented, `_parse_arglist`
returns a single entry whose description is the first-line description
joined with the `N` continuation lines by newlines, with the line cursor
advanced to `i + N` (the entry line plus exactly the `N` continuation lines
are consumed, and no further line). -/
theorem claim4_theorem (cfg : Config) (lines : List (List Char)) (i N : Nat)
    (f s d : List Char)
    (harg : _get_arg cfg.arg_delimiter (lines.getD i []) = some (f, s, d))
    (hcont : (((lines.drop (i + 1)).take N).all (fun l => _is_indent cfg.indent l)) = true)
    (hN : N ≤ (lines.drop (i + 1)).length)
    (hstop : _is_indent cfg.indent (_get_next_line lines (i + N)) = false) :
    _parse_arglist cfg lines i =
      (some ⟨f, s, joinLines (d :: (lines.drop (i + 1)).take N)⟩, i + N) := by
  unfold _parse_arglist
  rw [harg]
  dsimp only
  have hstop2 :
      _is_indent cfg.indent (first_nonblank ((lines.drop (i + 1)).drop N)) = false := by
    rw [List.drop_drop]
    have h : i + 1 + N = i + N + 1 := by omega
    rw [h]
    exact hstop
  rw [arglistCont_exact cfg.indent N (lines.drop (i + 1)) [d] hcont hN hstop2]
  simp

/-- Claim C4, witness: a concrete entry `"x: d"` with two indented
continuation lines followed by a non-indented line is parsed into the

description `"d\n    c1\n    c2"` with the cursor advanced by exactly two. -/
theorem claim4_witness :
    _parse_arglist googleConfig
      [("x: d".toList), ("    c1".toList), ("    c2".toList), ("end".toList)] 0 =
      (some ⟨("x".toList), [], ("d\n    c1\n    c2".toList)⟩, 2) := by
  have h := claim4_theorem googleConfig
    [("x: d".toList), ("    c1".toList), ("    c2".toList), ("end".toList)] 0 2
    ("x".toList) [] ("d".toList) (by decide) (by decide) (by decide) (by decide)
  exact h.trans (by decide)

theorem checkArgsLoop_ok (cfg : Config) (dargs : List ArgEntry)
    (hw : cfg.warn_if_no_arg_doc = true) :
    ∀ l, ∃ ws, checkArgsLoop cfg dargs l = .ok ws := by
  intro l
  induction l with
  | nil => exact ⟨[], rfl⟩
  | cons p rest ih =>
    obtain ⟨name, ty⟩ := p
    obtain ⟨ws, hws⟩ := ih
    by_cases h1 : ty = [] ∨ name ∈ cfg.exclude_warn_if_no_arg_doc
    · exact ⟨ws, by simp [checkArgsLoop, h1, hws]⟩
    · cases hd : dslookup dargs name with
      | none =>
        exact ⟨.missingDoc name :: ws, by simp [checkArgsLoop, h1, hd, hw, hws]⟩
      | some e =>
        by_cases h2 : e.signature ≠ parenWrap ty ∧ e.signature ≠ []
        · exact ⟨.annMismatch name :: ws, by simp [checkArgsLoop, h1, hd, hw, hws, h2]⟩
        · exact ⟨ws, by simp [checkArgsLoop, h1, hd, hw, hws, h2]⟩

theorem check_args_ok (cfg : Config) (sig : Option Signature) (sec : ParsedSection)
    (hw : cfg.warn_if_no_arg_doc = true) :
    ∃ ws, check_args cfg sig sec = .ok ws := by
  cases sig with
  | none => exact ⟨[], rfl⟩
  | some s =>
    unfold check_args
    by_cases hca : cfg.check_args = false
    · exact ⟨[], by simp [hca]⟩
    · by_cases hh : sec.header ∈ cfg.args
      · obtain ⟨ws, hws⟩ := checkArgsLoop_ok cfg sec.args hw s.args
        exact ⟨ws ++ unknownLoop s.args (dedupFirst (sec.args.map (fun a => a.field))),
          by simp [hca, hh, hws]⟩
      · exact ⟨[], by simp [hca, hh]⟩

/-- Claim C6 (amended): for every parsed section, signature map, and
configuration in which `warn_if_no_arg_doc` is enabled (the default), the
post-processing cross-checks of `check_args` (missing-documentation,
annotation-mismatch, unknown-argument) only emit warnings and never raise. -/
theorem claim6_theorem (cfg : Config) (sig : Option Signature) (sec : ParsedSection)
    (hw : cfg.warn_if_no_arg_doc = true) :
    ∃ ws, check_args cfg sig sec = .ok ws :=
  check_args_ok cfg sig sec hw

/-- Claim C6, witness: under the default configuration (where
`warn_if_no_arg_doc` holds) the checks on a concrete section with a declared
but undocumented argument complete without raising. -/
theorem claim6_witness :
    googleConfig.warn_if_no_arg_doc = true ∧
    ∃ ws, check_args googleConfig
      (some ⟨[(("x".toList), ("int".toList))], []⟩)
      { header := ("Args".toList), text := [], args := [], signature? := none } =
      .ok ws :=
  ⟨rfl, claim6_theorem googleConfig
    (some ⟨[(("x".toList), ("int".toList))], []⟩)
    { header := ("Args".toList), text := [], args := [], signature? := none } rfl⟩

theorem checkArgsLoop_keys (cfg : Config) (dargs : List ArgEntry)
    (hw : cfg.warn_if_no_arg_doc = true) :
    ∀ l ws, checkArgsLoop cfg dargs l = .ok ws →
      ∀ w ∈ ws, ∃ p ∈ l,
        w = DocWarning.missingDoc p.1 ∨ w = DocWarning.annMismatch p.1 := by
  intro l
  induction l with
  | nil =>
    intro ws h w hw2
    rw [checkArgsLoop] at h
    cases h
    simp at hw2
  | cons p rest ih =>
    obtain ⟨name, ty⟩ := p
    intro ws h w hww
    by_cases h1 : ty = [] ∨ name ∈ cfg.exclude_warn_if_no_arg_doc
    · rw [checkArgsLoop, if_pos h1] at h
      obtain ⟨q, hq, hc⟩ := ih ws h w hww
      exact ⟨q, List.mem_cons_of_mem _ hq, hc⟩
    · cases hd : dslookup dargs name with
      | none =>
        rw [checkArgsLoop, if_neg h1] at h
        rw [hd] at h
        simp only [Option.isNone_none, Bool.true_and, hw, if_pos rfl] at h
        cases hrec : checkArgsLoop cfg dargs rest with
        | err e => rw [hrec] at h; cases h
        | ok ws2 =>
          rw [hrec] at h
          cases h
          rcases List.mem_cons.mp hww with rfl | hmem
          · exact ⟨(name, ty), List.mem_cons_self _ _, Or.inl rfl⟩
          · obtain ⟨q, hq, hc⟩ := ih ws2 hrec w hmem
            exact ⟨q, List.mem_cons_of_mem _ hq, hc⟩
      | some e =>
        rw [checkArgsLoop, if_neg h1] at h
        rw [hd] at h
        simp only [Option.isNone_some, Bool.false_and, Bool.false_eq_true,
          if_neg] at h
        by_cases h2 : e.signature ≠ parenWrap ty ∧ e.signature ≠ []
        · rw [if_pos h2] at h
          cases hrec : checkArgsLoop cfg dargs rest with
          | err e2 => rw [hrec] at h; cases h
          | ok ws2 =>
            rw [hrec] at h
            cases h
            rcases List.mem_cons.mp hww with rfl | hmem
            · exact ⟨(name, ty), List.mem_cons_self _ _, Or.inr rfl⟩
            · obtain ⟨q, hq, hc⟩ := ih ws2 hrec w hmem
              exact ⟨q, List.mem_cons_of_mem _ hq, hc⟩
        · rw [if_neg h2] at h
          obtain ⟨q, hq, hc⟩ := ih ws h w hww
          exact ⟨q, List.mem_cons_of_mem _ hq, hc⟩

theorem unknownLoop_shape (sa : List (List Char × List Char)) :
    ∀ keys w, w ∈ unknownLoop sa keys → ∃ k, w = DocWarning.unknownArg k := by
  intro keys
  induction keys with
  | nil =>
    intro w hw
    simp [unknownLoop] at hw
  | cons k rest ih =>
    intro w hw
    cases h : sigHasKey sa k with
    | true => exact ih w (by simpa [unknownLoop, h] using hw)
    | false =>
      rw [unknownLoop, h] at hw
      simp only [Bool.false_eq_true, if_neg] at hw
      rcases List.mem_cons.mp hw with rfl | hmem
      · exact ⟨k, rfl⟩
      · exact ih w hmem

theorem checkArgsLoop_mismatch_mem (cfg : Config) (dargs : List ArgEntry)
    (hw : cfg.warn_if_no_arg_doc = true) (name ty : List Char) (e : ArgEntry)
    (hty : ty ≠ []) (hexcl : name ∉ cfg.exclude_warn_if_no_arg_doc)
    (hdoc : dslookup dargs name = some e) :
    ∀ l, (name, ty) ∈ l → (l.map Prod.fst).Nodup →
      ∃ ws, checkArgsLoop cfg dargs l = .ok ws ∧
        (DocWarning.annMismatch name ∈ ws ↔
          (e.signature ≠ parenWrap ty ∧ e.signature ≠ [])) := by
  intro l
  induction l with
  | nil =>
    intro hmem _
    simp at hmem
  | cons p rest ih =>
    intro hmem hnodup
    obtain ⟨a, τ⟩ := p
    rw [List.map_cons, List.nodup_cons] at hnodup
    obtain ⟨hnota, hnodup2⟩ := hnodup
    rcases List.mem_cons.mp hmem with heq | hmem2
    · injection heq with ha hτ
      subst ha
      subst hτ
      have h1 : ¬ (ty = [] ∨ name ∈ cfg.exclude_warn_if_no_arg_doc) := by
        rintro (h | h)
        · exact hty h
        · exact hexcl h
      obtain ⟨ws2, hws2⟩ := checkArgsLoop_ok cfg dargs hw rest
      have hnomem : DocWarning.annMismatch name ∉ ws2 := by
        intro hmem3
        obtain ⟨q, hq, hc⟩ := checkArgsLoop_keys cfg dargs hw rest ws2 hws2 _ hmem3
        rcases hc with hc | hc
        · cases hc
        · injection hc with hk
          have hmm := List.mem_map_of_mem Prod.fst hq
          refine hnota ?_
          rw [hk]
          exact hmm
      by_cases h2 : e.signature ≠ parenWrap ty ∧ e.signature ≠ []
      · refine ⟨.annMismatch name :: ws2, ?_, ?_⟩
        · simp [checkArgsLoop, h1, hdoc, hws2, h2]
        · exact iff_of_true (List.mem_cons_self _ _) h2
      · refine ⟨ws2, ?_, ?_⟩
        · simp [checkArgsLoop, h1, hdoc, hws2, h2]
        · constructor
          · intro hmem3
            exact absurd hmem3 hnomem
          · intro hcond
            exact absurd hcond h2
    · have hane : a ≠ name := by
        intro h
        have hmm := List.mem_map_of_mem Prod.fst hmem2
        refine hnota ?_
        rw [h]
        exact hmm
      obtain ⟨ws2, hws2, hiff⟩ := ih hmem2 hnodup2
      by_cases h1 : τ = [] ∨ a ∈ cfg.exclude_warn_if_no_arg_doc
      · exact ⟨ws2, by simp [checkArgsLoop, h1, hws2], hiff⟩
      · cases hd : dslookup dargs a with
        | none =>
          refine ⟨.missingDoc a :: ws2, ?_, ?_⟩
          · simp [checkArgsLoop, h1, hd, hw, hws2]
          · rw [List.mem_cons]
            simp only [show (DocWarning.annMismatch name = DocWarning.missingDoc a) ↔ False by
              constructor
              · intro h; cases h
              · intro h; cases h]
            simpa using hiff
        | some e2 =>
          by_cases h2 : e2.signature ≠ parenWrap τ ∧ e2.signature ≠ []
          · refine ⟨.annMismatch a :: ws2, ?_, ?_⟩
            · simp [checkArgsLoop, h1, hd, hw, hws2, h2]
            · rw [List.mem_cons]
              have hne2 : DocWarning.annMismatch name ≠ DocWarning.annMismatch a := by
                intro h
                injection h with h3
                exact hane h3.symm
              simp only [show (DocWarning.annMismatch name = DocWarning.annMismatch a) ↔ False by
                constructor
                · intro h; exact hne2 h
                · intro h; cases h]
              simpa using hiff
          · exact ⟨ws2, by simp [checkArgsLoop, h1, hd, hw, hws2, h2], hiff⟩

/-- Claim C7 (amended): under the default configuration with a supplied
signature map, for every argument name outside the exclusion list
`exclude_warn_if_no_arg_doc` (default `['self']`) declared with a non-empty
type and documented by an entry in an Args-headed section, `check_args`
emits the annotation-mismatch warning for that name iff the entry's recorded
signature is non-empty and differs textually from `"(<declared type>)"`; in
particular an empty recorded signature is never flagged. -/
theorem claim7_theorem (s : Signature) (sec : ParsedSection)
    (name ty : List Char) (e : ArgEntry)
    (hmem : (name, ty) ∈ s.args) (hnodup : (s.args.map Prod.fst).Nodup)
    (hty : ty ≠ []) (hexcl : name ∉ googleConfig.exclude_warn_if_no_arg_doc)
    (hhdr : sec.header ∈ googleConfig.args)
    (hdoc : dslookup sec.args name = some e) :
    ∃ ws, check_args googleConfig (some s) sec = .ok ws ∧
      (DocWarning.annMismatch name ∈ ws ↔
        (e.signature ≠ parenWrap ty ∧ e.signature ≠ [])) := by
  obtain ⟨ws1, hws1, hiff⟩ := checkArgsLoop_mismatch_mem googleConfig sec.args rfl
    name ty e hty hexcl hdoc s.args hmem hnodup
  refine ⟨ws1 ++ unknownLoop s.args (dedupFirst (sec.args.map (fun a => a.field))),
    ?_, ?_⟩
  · unfold check_args
    dsimp only
    rw [if_neg (by decide), if_pos hhdr, hws1]
  · rw [List.mem_append]
    constructor
    · rintro (h | h)
      · exact hiff.mp h
      · obtain ⟨k, hk⟩ := unknownLoop_shape s.args _ _ h
        cases hk
    · intro h
      exact Or.inl (hiff.mpr h)

/-- Claim C7, witness: a concrete declared argument `x : int` documented with
the recorded signature `"(str)"` is flagged with the mismatch warning, by
the amended characterisation. -/
theorem claim7_witness :
    ∃ ws, check_args googleConfig
      (some ⟨[(("x".toList), ("int".toList))], []⟩)
      { header := ("Args".toList), text := [],
        args := [⟨("x".toList), ("(str)".toList), ("d".toList)⟩],
        signature? := none } = .ok ws ∧
      (DocWarning.annMismatch ("x".toList) ∈ ws ↔
        ((ArgEntry.mk ("x".toList) ("(str)".toList) ("d".toList)).signature ≠
            parenWrap ("int".toList) ∧
         (ArgEntry.mk ("x".toList) ("(str)".toList) ("d".toList)).signature ≠ [])) :=
  claim7_theorem ⟨[(("x".toList), ("int".toList))], []⟩
    { header := ("Args".toList), text := [],
      args := [⟨("x".toList), ("(str)".toList), ("d".toList)⟩], signature? := none }
    ("x".toList) ("int".toList) ⟨("x".toList), ("(str)".toList), ("d".toList)⟩
    (by decide) (by decide) (by decide) (by decide) (by decide) (by decide)

theorem splitCharAux_ne_nil (sep : Char) (l : List Char) :
    ∀ cur, splitCharAux sep cur l ≠ [] := by
  induction l with
  | nil =>
    intro cur
    simp [splitCharAux]
  | cons c rest ih =>
    intro cur
    by_cases hc : c = sep
    · simp [splitCharAux, hc]
    · simpa [splitCharAux, hc] using ih (c :: cur)

theorem joinLines_cons (a : List Char) (ls : List (List Char)) (h : ls ≠ []) :
    joinLines (a :: ls) = a ++ '\n' :: joinLines ls := by
  cases ls with
  | nil => exact absurd rfl h
  | cons b t => rfl

theorem joinLines_splitCharAux (l : List Char) :
    ∀ cur, joinLines (splitCharAux '\n' cur l) = cur.reverse ++ l := by
  induction l with
  | nil =>
    intro cur
    simp [splitCharAux, joinLines]
  | cons c rest ih =>
    intro cur
    by_cases hc : c = '\n'
    · subst hc
      rw [splitCharAux, if_pos rfl]
      rw [joinLines_cons _ _ (splitCharAux_ne_nil '\n' rest [])]
      rw [ih []]
      simp
    · rw [splitCharAux, if_neg hc]
      rw [ih (c :: cur)]
      simp

theorem joinLines_splitLines (l : List Char) : joinLines (splitLines l) = l := by
  simpa using joinLines_splitCharAux l []

theorem extractAux_flat (cfg : Config) (lines : List (List Char)) :
    ∀ (rest : List (List Char)) (k : Nat) (ns nb : Bool) (st : ExtState),
      st.indent = 0 →
      (∀ l ∈ rest,
        _is_header cfg.headers cfg.delimiter l = false ∧
        _is_block cfg.blocks l = false ∧
        _is_indent cfg.indent l = false) →
      extractAux cfg lines rest k ns nb st = .ok { st with buf := st.buf ++ rest } := by
  intro rest
  induction rest with
  | nil =>
    intro k ns nb st _ _
    simp [extractAux]
  | cons line rest ih =>
    intro k ns nb st hst hall
    obtain ⟨hH, hB, hI⟩ := hall line (List.mem_cons_self _ _)
    have hall2 : ∀ l ∈ rest,
        _is_header cfg.headers cfg.delimiter l = false ∧
        _is_block cfg.blocks l = false ∧
        _is_indent cfg.indent l = false :=
      fun l hl => hall l (List.mem_cons_of_mem _ hl)
    rw [extractAux]
    simp [hI, hH, hB, hst]
    rw [ih (k + 1) ns nb ⟨0, st.sects, st.buf ++ [line]⟩ rfl hall2]
    simp [hst]

/-- Claim C2 (amended): for every docstring that contains no line matching a
header keyword, no line matching a block marker, and also no line indented by
at least the configured minimum indent, the extractor produces exactly one
RawSection equal to the entire docstring text unchanged — provided the text
is not whitespace-only; a whitespace-only docstring yields no section at
all. -/
theorem claim2_theorem (cfg : Config) (doc : List Char)
    (hplain : ∀ l ∈ splitLines doc,
      _is_header cfg.headers cfg.delimiter l = false ∧
      _is_block cfg.blocks l = false ∧
      _is_indent cfg.indent l = false) :
    extract_sections cfg doc [] =
      .ok (if stripWs doc = [] then [] else [doc]) := by
  unfold extract_sections
  dsimp only
  rw [extractAux_flat cfg (splitLines doc) (splitLines doc) 0 true false
    ⟨0, [], []⟩ rfl hplain]
  show PRes.ok (_begin_section (_end_section ⟨0, [], splitLines doc⟩)).sects = _
  unfold _end_section _begin_section
  dsimp only
  rw [joinLines_splitLines]
  by_cases h : stripWs doc = []
  · rw [if_neg (by simpa using h), if_pos h]
  · rw [if_pos (by simpa using h), if_neg h]
    rfl

/-- Claim C2, witness: a concrete two-line docstring with no headers, no
block markers and no indentation is extracted as the single section equal to
the whole docstring. -/
theorem claim2_witness :
    extract_sections googleConfig ("first line\nsecond line".toList) [] =
      .ok [("first line\nsecond line".toList)] := by
  have h := claim2_theorem googleConfig ("first line\nsecond line".toList) (by decide)
  exact h.trans (by decide)

theorem drop_eq_getD_cons (lines : List (List Char)) (k : Nat)
    (h : k < lines.length) :
    lines.drop k = lines.getD k [] :: lines.drop (k + 1) := by
  rw [List.drop_eq_getElem_cons h, List.getD_eq_getElem lines [] h]

theorem extractAux_first_err (cfg : Config) (lines : List (List Char)) (j : Nat)
    (hjlen : j < lines.length) (hj : offending cfg lines j) :
    ∀ n k, k + n = j →
      (∀ m, k ≤ m → m < j → ¬ offending cfg lines m) →
      ∀ ns nb st, extractAux cfg lines (lines.drop k) k ns nb st =
        .err (.synErr (err_msg j (lines.getD j []))) := by
  intro n
  induction n with
  | zero =>
    intro k hk hmin ns nb st
    have hkj : k = j := by omega
    subst hkj
    rw [drop_eq_getD_cons lines k hjlen]
    obtain ⟨hhb, hni⟩ := hj
    set line := lines.getD k [] with hlinedef
    rw [extractAux]
    cases hcase : _is_header cfg.headers cfg.delimiter line with
    | true => simp [hcase, hni]
    | false =>
      have hb : _is_block cfg.blocks line = true := by
        rcases hhb with h | h
        · rw [hcase] at h
          cases h
        · exact h
      simp [hcase, hb, hni]
  | succ n ih =>
    intro k hk hmin ns nb st
    have hklt : k < j := by omega
    have hkl : k < lines.length := by omega
    have hnotoff : ¬ offending cfg lines k := hmin k le_rfl hklt
    rw [drop_eq_getD_cons lines k hkl]
    set line := lines.getD k [] with hlinedef
    rw [extractAux]
    have hrec : ∀ ns2 nb2 st2,
        extractAux cfg lines (lines.drop (k + 1)) (k + 1) ns2 nb2 st2 =
          .err (.synErr (err_msg j (lines.getD j []))) :=
      ih (k + 1) (by omega) (fun m h1 h2 => hmin m (by omega) h2)
    cases hH : _is_header cfg.headers cfg.delimiter line with
    | true =>
      have hind : _is_indent cfg.indent (_get_next_line lines k) = true := by
        cases hI : _is_indent cfg.indent (_get_next_line lines k) with
        | false => exact absurd ⟨Or.inl hH, hI⟩ hnotoff
        | true => rfl
      simp [hH, hind, hrec]
    | false =>
      cases hB : _is_block cfg.blocks line with
      | true =>
        have hind : _is_indent cfg.indent (_get_next_line lines k) = true := by
          cases hI : _is_indent cfg.indent (_get_next_line lines k) with
          | false => exact absurd ⟨Or.inr hB, hI⟩ hnotoff
          | true => rfl
        simp [hH, hB, hind, hrec]
      | false =>
        simp only [hH, hB, Bool.false_eq_true, if_false]
        split <;> split <;> exact hrec _ _ _

/-- Claim C1: for every docstring in which some line is recognised as a
header or block-marker line and is not followed (skipping empty lines) by a
line indented by at least the configured minimum, section extraction aborts
with the `SyntaxError` whose message carries the offending line number and
the offending line's text — namely at the first such line — and `parse()`
propagates the error, so no parsed output is produced. -/
theorem claim1_theorem (cfg : Config) (sig : Option Signature) (doc : List Char)
    (prev : List (List Char)) (i : Nat)
    (hi : i < (splitLines doc).length)
    (hoff : offending cfg (splitLines doc) i) :
    ∃ j, j ≤ i ∧ offending cfg (splitLines doc) j ∧
      extract_sections cfg doc prev =
        .err (.synErr (err_msg j ((splitLines doc).getD j []))) ∧
      parseDS cfg sig doc prev =
        .err (.synErr (err_msg j ((splitLines doc).getD j []))) := by
  have hex : ∃ m, offending cfg (splitLines doc) m := ⟨i, hoff⟩
  have hj : offending cfg (splitLines doc) (Nat.find hex) := Nat.find_spec hex
  have hji : Nat.find hex ≤ i := Nat.find_min' hex hoff
  have hjlen : Nat.find hex < (splitLines doc).length := lt_of_le_of_lt hji hi
  have key := extractAux_first_err cfg (splitLines doc) (Nat.find hex) hjlen hj
    (Nat.find hex) 0 (by omega) (fun m _ hm => Nat.find_min hex hm) true false
    ⟨0, prev, []⟩
  rw [List.drop_zero] at key
  have hsec : extract_sections cfg doc prev =
      .err (.synErr (err_msg (Nat.find hex) ((splitLines doc).getD (Nat.find hex) []))) := by
    unfold extract_sections
    dsimp only
    rw [key]
  refine ⟨Nat.find hex, hji, hj, hsec, ?_⟩
  unfold parseDS
  rw [hsec]

/-- Claim C1, witness: the docstring `"Args:\nno indent"` has the header line
`"Args:"` at line 0 followed by a non-indented line; extraction and parsing
abort with the syntax error naming line 0 and the line text `"Args:"`. -/
theorem claim1_witness :
    0 < (splitLines ("Args:\nno indent".toList)).length ∧
    offending googleConfig (splitLines ("Args:\nno indent".toList)) 0 ∧
    ∃ j, j ≤ 0 ∧ offending googleConfig (splitLines ("Args:\nno indent".toList)) j ∧
      extract_sections googleConfig ("Args:\nno indent".toList) [] =
        .err (.synErr (err_msg j ((splitLines ("Args:\nno indent".toList)).getD j []))) ∧
      parseDS googleConfig none ("Args:\nno indent".toList) [] =
        .err (.synErr (err_msg j ((splitLines ("Args:\nno indent".toList)).getD j []))) :=
  ⟨by decide, by decide,
    claim1_theorem googleConfig none ("Args:\nno indent".toList) [] 0
      (by decide) (by decide)⟩

theorem mapSects_comp (y x : List (List Char)) (r : PRes ExtState) :
    mapSects y (mapSects x r) = mapSects (y ++ x) r := by
  cases r with
  | ok st => simp [mapSects]
  | err e => rfl

theorem end_section_eq (a : Nat) (s b : List (List Char)) :
    _end_section ⟨a, s, b⟩ =
      ⟨a, s ++ (if stripWs (joinLines b) = [] then [] else [joinLines b]), b⟩ := by
  unfold _end_section
  dsimp only
  by_cases h : stripWs (joinLines b) = []
  · rw [if_neg (by simpa using h), if_pos h]
    simp
  · rw [if_pos (by simpa using h), if_neg h]

theorem extractAux_pre (cfg : Config) (lines : List (List Char)) :
    ∀ (rest : List (List Char)) (i : Nat) (ns nb : Bool) (ind : Nat)
      (buf pre : List (List Char)),
      extractAux cfg lines rest i ns nb ⟨ind, pre, buf⟩ =
        mapSects pre (extractAux cfg lines rest i ns nb ⟨ind, [], buf⟩) := by
  intro rest
  induction rest with
  | nil =>
    intro i ns nb ind buf pre
    simp [extractAux, mapSects]
  | cons line rest ih =>
    intro i ns nb ind buf pre
    rw [extractAux, extractAux]
    by_cases h1 : (ns && _is_indent cfg.indent line) = true
    · rw [Bool.and_eq_true] at h1
      obtain ⟨hns, hind⟩ := h1
      subst hns
      simp only [hind, Bool.and_true, Bool.true_and, end_section_eq,
        _begin_section, if_true, reduceIte, lt_irrefl]
      simp only [List.nil_append, and_false, reduceIte]
      split_ifs <;>
        first
        | rfl
        | (rw [ih]; try (conv_rhs => rw [ih]); try rw [mapSects_comp];
           try simp [end_section_eq])
    · simp only [h1, reduceIte, end_section_eq, _begin_section, List.nil_append]
      split_ifs <;>
        first
        | rfl
        | (rw [ih]; try (conv_rhs => rw [ih]); try rw [mapSects_comp];
           try simp [end_section_eq])

theorem extract_sections_pre (cfg : Config) (doc : List Char)
    (prev : List (List Char)) :
    extract_sections cfg doc prev =
      match extract_sections cfg doc [] with
      | .err e => .err e
      | .ok l => .ok (prev ++ l) := by
  unfold extract_sections
  dsimp only
  rw [extractAux_pre cfg (splitLines doc) (splitLines doc) 0 true false 0 [] prev]
  cases extractAux cfg (splitLines doc) (splitLines doc) 0 true false ⟨0, [], []⟩ with
  | err e => rfl
  | ok st =>
    obtain ⟨a, s, b⟩ := st
    simp [mapSects, end_section_eq, _begin_section, List.append_assoc]

theorem processAll_append (cfg : Config) (sig : Option Signature)
    (a b : List ParsedSection) :
    processAll cfg sig (a ++ b) =
      match processAll cfg sig a with
      | .err e => .err e
      | .ok ra =>
        match processAll cfg sig b with
        | .err e => .err e
        | .ok rb => .ok (ra ++ rb) := by
  induction a with
  | nil =>
    cases hb : processAll cfg sig b with
    | err e => simp [processAll, hb]
    | ok rb => simp [processAll, hb]
  | cons sec rest ih =>
    rw [List.cons_append, processAll, processAll, ih]
    cases processOne cfg sig sec with
    | err e => rfl
    | ok s2 =>
      cases processAll cfg sig rest with
      | err e => rfl
      | ok ra =>
        cases processAll cfg sig b <;> rfl

/-- Claim C5 (amended): for every docstring, signature map and configuration,
when the first `parse()` call succeeds with data `d` (and internal section
list `secs`), a second `parse()` on the same instance does not return a
structurally equal result: `self.data` is reassigned, but `extract_sections`
appends to the persistent `self._state['sections']`, so the second call
returns `d ++ d` (and the section list becomes `secs ++ secs`). -/
theorem claim5_theorem (cfg : Config) (sig : Option Signature) (doc : List Char)
    (d : List ParsedSection) (secs : List (List Char))
    (h : parseDS cfg sig doc [] = .ok (d, secs)) :
    parseDS cfg sig doc secs = .ok (d ++ d, secs ++ secs) := by
  unfold parseDS at h ⊢
  cases hex : extract_sections cfg doc [] with
  | err e =>
    rw [hex] at h
    cases h
  | ok secs0 =>
    rw [hex] at h
    dsimp only at h
    cases hpa : processAll cfg sig (secs0.map (parse_section cfg)) with
    | err e =>
      rw [hpa] at h
      cases h
    | ok data =>
      rw [hpa] at h
      cases h
      have hex2 : extract_sections cfg doc secs = .ok (secs ++ secs) := by
        rw [extract_sections_pre, hex]
      rw [hex2]
      dsimp only
      rw [List.map_append, processAll_append, hpa]

/-- Claim C5, witness: the duplication theorem applied to the concrete
docstring `"hello"`, whose first parse yields one prose section. -/
theorem claim5_witness :
    parseDS googleConfig none ("hello".toList) [("hello".toList)] =
      .ok ([{ header := [], text := ("hello".toList), args := [], signature? := none },
            { header := [], text := ("hello".toList), args := [], signature? := none }],
           [("hello".toList), ("hello".toList)]) := by
  have h := claim5_theorem googleConfig none ("hello".toList)
    [{ header := [], text := ("hello".toList), args := [], signature? := none }]
    [("hello".toList)] (by decide)
  exact h.trans (by decide)

theorem splitCharAux_chars (sep : Char) (l : List Char) :
    ∀ (cur : List Char) (x : List Char), x ∈ splitCharAux sep cur l →
      ∀ c ∈ x, c ∈ cur ∨ c ∈ l := by
  induction l with
  | nil =>
    intro cur x hx c hc
    rw [splitCharAux] at hx
    rcases List.mem_singleton.mp hx with rfl
    exact Or.inl (List.mem_reverse.mp hc)
  | cons a rest ih =>
    intro cur x hx c hc
    by_cases ha : a = sep
    · rw [splitCharAux, if_pos ha] at hx
      rcases List.mem_cons.mp hx with rfl | hx2
      · exact Or.inl (List.mem_reverse.mp hc)
      · rcases ih [] x hx2 c hc with h | h
        · simp at h
        · exact Or.inr (List.mem_cons_of_mem _ h)
    · rw [splitCharAux, if_neg ha] at hx
      rcases ih (a :: cur) x hx c hc with h | h
      · rcases List.mem_cons.mp h with rfl | h2
        · exact Or.inr (List.mem_cons_self _ _)
        · exact Or.inl h2
      · exact Or.inr (List.mem_cons_of_mem _ h)

theorem dropWhile_all_space (l : List Char)
    (h : ∀ c ∈ l, isPySpace c = true) : l.dropWhile isPySpace = [] := by
  induction l with
  | nil => rfl
  | cons c rest ih =>
    rw [List.dropWhile_cons, if_pos (h c (List.mem_cons_self _ _))]
    exact ih (fun x hx => h x (List.mem_cons_of_mem _ hx))

theorem stripWs_blank (l : List Char)
    (h : ∀ c ∈ l, isPySpace c = true) : stripWs l = [] := by
  unfold stripWs
  rw [dropWhile_all_space l h]
  rfl

theorem is_header_blank (headers : List (List Char)) (delim : List Char)
    (hd : delim ≠ []) (line : List Char)
    (h : ∀ c ∈ line, isPySpace c = true) :
    _is_header headers delim line = false := by
  unfold _is_header
  rw [dropWhile_all_space line h]
  rw [List.any_eq_false]
  intro kw _
  rw [Bool.not_eq_true, ← Bool.not_eq_true]
  intro hpre
  rw [List.isPrefixOf_iff_prefix, List.prefix_nil] at hpre
  rcases List.append_eq_nil.mp hpre with ⟨_, h2⟩
  exact hd h2

theorem is_block_blank (blocks : List (List Char)) (line : List Char)
    (h : ∀ c ∈ line, isPySpace c = true) :
    _is_block blocks line = false := by
  unfold _is_block
  rw [Bool.or_eq_false_iff]
  constructor
  · rw [dropWhile_all_space line h]
    rfl
  · rw [List.any_eq_false]
    intro kw _
    rw [Bool.not_eq_true, ← Bool.not_eq_true]
    intro hsub
    obtain ⟨p, q, hdec⟩ := (containsSub_iff _ _).mp hsub
    have hq : ('?' : Char) ∈ line := by
      rw [hdec]
      simp [List.mem_append]
    have := h '?' hq
    simp [isPySpace] at this

theorem joinLines_chars (ls : List (List Char)) :
    ∀ c ∈ joinLines ls, c = '\n' ∨ ∃ l ∈ ls, c ∈ l := by
  induction ls with
  | nil =>
    intro c hc
    simp [joinLines] at hc
  | cons a t ih =>
    cases t with
    | nil =>
      intro c hc
      rw [joinLines] at hc
      exact Or.inr ⟨a, List.mem_singleton_self _, hc⟩
    | cons b t2 =>
      intro c hc
      rw [joinLines_cons a (b :: t2) (by simp)] at hc
      rcases List.mem_append.mp hc with h | h
      · exact Or.inr ⟨a, List.mem_cons_self _ _, h⟩
      · rcases List.mem_cons.mp h with rfl | h2
        · exact Or.inl rfl
        · rcases ih c h2 with h3 | ⟨l, hl, hcl⟩
          · exact Or.inl h3
          · exact Or.inr ⟨l, List.mem_cons_of_mem _ hl, hcl⟩

theorem joinLines_blank (ls : List (List Char))
    (h : ∀ l ∈ ls, ∀ c ∈ l, isPySpace c = true) :
    ∀ c ∈ joinLines ls, isPySpace c = true := by
  intro c hc
  rcases joinLines_chars ls c hc with rfl | ⟨l, hl, hcl⟩
  · rfl
  · exact h l hl c hcl

theorem end_section_blank (x : Nat) (s b : List (List Char))
    (h : stripWs (joinLines b) = []) : _end_section ⟨x, s, b⟩ = ⟨x, s, b⟩ := by
  unfold _end_section
  dsimp only
  rw [h]
  simp

theorem extractAux_blank (cfg : Config) (hd : cfg.delimiter ≠ [])
    (lines : List (List Char)) :
    ∀ (rest : List (List Char)) (k : Nat) (ns nb : Bool) (st : ExtState),
      (∀ l ∈ rest, ∀ c ∈ l, isPySpace c = true) →
      (∀ l ∈ st.buf, ∀ c ∈ l, isPySpace c = true) →
      ∃ st2, extractAux cfg lines rest k ns nb st = .ok st2 ∧
        st2.sects = st.sects ∧
        (∀ l ∈ st2.buf, ∀ c ∈ l, isPySpace c = true) := by
  intro rest
  induction rest with
  | nil =>
    intro k ns nb st _ hbuf
    exact ⟨st, by rw [extractAux], rfl, hbuf⟩
  | cons line rest ih =>
    intro k ns nb st hall hbuf
    obtain ⟨a, s, b⟩ := st
    have hline := hall line (List.mem_cons_self _ _)
    have hrest : ∀ l ∈ rest, ∀ c ∈ l, isPySpace c = true :=
      fun l hl => hall l (List.mem_cons_of_mem _ hl)
    have hH := is_header_blank cfg.headers cfg.delimiter hd line hline
    have hB := is_block_blank cfg.blocks line hline
    have hdropblank : ∀ n, ∀ c ∈ line.drop n, isPySpace c = true :=
      fun n c hc => hline c (List.drop_subset n line hc)
    have hendblank : stripWs (joinLines b) = [] :=
      stripWs_blank _ (joinLines_blank b hbuf)
    have hend : ∀ (x : Nat) (s2 : List (List Char)),
        _end_section ⟨x, s2, b⟩ = ⟨x, s2, b⟩ :=
      fun x s2 => end_section_blank x s2 b hendblank
    have hbl1 : ∀ n : Nat, ∀ l ∈ [line.drop n], ∀ c ∈ l, isPySpace c = true := by
      intro n l hl c hc
      rcases List.mem_singleton.mp hl with rfl
      exact hdropblank n c hc
    have hbl2 : ∀ n : Nat, ∀ l ∈ b ++ [line.drop n], ∀ c ∈ l, isPySpace c = true := by
      intro n l hl c hc
      rcases List.mem_append.mp hl with h | h
      · exact hbuf l h c hc
      · rcases List.mem_singleton.mp h with rfl
        exact hdropblank n c hc
    rw [extractAux]
    simp only [hH, hB, Bool.false_eq_true, reduceIte, _begin_section,
      List.nil_append]
    split_ifs <;> (try simp only [hend, List.nil_append]) <;>
      first
      | exact ih (k + 1) _ _ ⟨0, s, [line.drop 0]⟩ hrest (hbl1 0)
      | exact ih (k + 1) _ _ ⟨_get_indent cfg.indent line, s,
          b ++ [line.drop (_get_indent cfg.indent line)]⟩ hrest (hbl2 _)
      | exact ih (k + 1) _ _ ⟨a, s, b ++ [line.drop a]⟩ hrest (hbl2 _)

/-- Claim C10: for a docstring that is `None`, empty, or consists only of
whitespace, constructing the parser (which normalises `None` to the empty
string) and calling `parse()` returns the empty list: no whitespace-only
section buffer is ever emitted as a section, so there is nothing to parse. -/
theorem claim10_theorem (d : Option (List Char)) (sig : Option Signature)
    (hblank : ∀ c ∈ ds_init d, isPySpace c = true) :
    parseDS googleConfig sig (ds_init d) [] = .ok ([], []) := by
  have hlines : ∀ l ∈ splitLines (ds_init d), ∀ c ∈ l, isPySpace c = true := by
    intro l hl c hc
    rcases splitCharAux_chars '\n' (ds_init d) [] l hl c hc with h | h
    · simp at h
    · exact hblank c h
  obtain ⟨st2, hrun, hsects, hbuf2⟩ := extractAux_blank googleConfig (by decide)
    (splitLines (ds_init d)) (splitLines (ds_init d)) 0 true false ⟨0, [], []⟩
    hlines (by simp)
  obtain ⟨a2, s2, b2⟩ := st2
  have hs2 : s2 = [] := hsects
  subst hs2
  have hfin : extract_sections googleConfig (ds_init d) [] = .ok [] := by
    unfold extract_sections
    dsimp only
    rw [hrun]
    dsimp only
    rw [end_section_blank a2 [] b2 (stripWs_blank _ (joinLines_blank b2 hbuf2))]
    rfl
  unfold parseDS
  rw [hfin]
  rfl

/-- Claim C10, witness: the theorem applied to the whitespace-only docstring
`"  \n \n"` (and, through `ds_init`, covering the `None` normalisation). -/
theorem claim10_witness :
    parseDS googleConfig none (ds_init (some ("  \n \n".toList))) [] =
      .ok ([], []) :=
  claim10_theorem (some ("  \n \n".toList)) none (by decide)
